import Mathlib

/-!
Shallow embedding of the MIPS trace analyzer in src/program_statistics.c.

Modelling conventions:
- C unsigned 64-bit values are Nat, reduced mod 2 to the 64 where the C
  arithmetic can wrap (the uint64 subtraction and shifts in bitsAt).
- C int values are Int; the cast from uint64 to int in bitsAt is modelled
  as two-complement truncation to 32 bits (toInt32).
- The undefined C shift 1ULL shifted by 64 (reached only by the full-range
  call bitsAt(word, 0, 63)) is modelled as value wraparound mod 2 to the 64,
  which drops the shifted-out bit.
- The register table reg[32][2] is a total function Int -> Nat -> Int
  (first index the register number as the C int field, second index 0 for
  the read column and 1 for the write column, as in the source where
  read = 0 and write = 1); cells hold Int because the source can drive a
  count below zero.
- The fscanf read loop of main is modelled over a stream of already
  lexed tokens: some v is a whitespace-separated token that parses as
  hexadecimal value v, none is a token that does not. Per the C standard,
  fscanf returns EOF only when the input is exhausted before the first
  conversion; on a matching failure it returns the number of conversions
  done so far and leaves the offending token unconsumed.
-/

set_option linter.unusedVariables false

/-- The C enum Type with values i, r, j (renamed, since Type is taken in Lean). -/
inductive Ty where
  | i
  | r
  | j
deriving DecidableEq

/-- struct Instruction: address and raw word (uint64), the decoded int fields
and the format tag. -/
structure Instruction where
  addr : Nat
  word : Nat
  op : Int
  rs : Int
  rt : Int
  rd : Int
  shamt : Int
  funct : Int
  imm : Int
  jAddr : Int
  type : Ty

/-- struct Stats: the ten counters and the register usage table reg[32][2]. -/
structure Stats where
  insts : Int
  rType : Int
  iType : Int
  jType : Int
  fwdTaken : Int
  bkwTaken : Int
  notTaken : Int
  loads : Int
  stores : Int
  arith : Int
  reg : Int → Nat → Int

/-- The zero-initialized accumulator that getStat starts from. -/
def stats0 : Stats :=
  { insts := 0, rType := 0, iType := 0, jType := 0, fwdTaken := 0, bkwTaken := 0,
    notTaken := 0, loads := 0, stores := 0, arith := 0, reg := fun _ _ => 0 }

/-- The C cast (int) applied to a uint64 value: two-complement truncation
to 32 bits. -/
def toInt32 (x : Nat) : Int :=
  if x % 2 ^ 32 < 2 ^ 31 then ((x % 2 ^ 32 : Nat) : Int)
  else ((x % 2 ^ 32 : Nat) : Int) - 2 ^ 32

/-- The mask ((1ULL << (end - start + 1)) - 1) << start computed in uint64
arithmetic. The uint64 subtraction is modelled with wraparound; the shift of
1ULL is reduced mod 2 to the 64 (see the file header on the shift-by-64 case). -/
def mask64 (start stop : Nat) : Nat :=
  (((((1 <<< (stop - start + 1)) % 2 ^ 64) + (2 ^ 64 - 1)) % 2 ^ 64) <<< start) % 2 ^ 64

/-- int bitsAt(uint64_t word, int start, int end): masks out bits start..end
of the word, shifts them down to position 0 and casts the uint64 result to int. -/
def bitsAt (word : Nat) (start stop : Nat) : Int :=
  toInt32 (((word % 2 ^ 64) &&& mask64 start stop) >>> start)

/-- Type getOp(int op): opcode 0x00 gives r, opcodes 0x02 and 0x03 give j,
every other opcode gives i. -/
def getOp (op : Int) : Ty :=
  if op = 0x00 then Ty.r
  else if op = 0x02 ∨ op = 0x03 then Ty.j
  else Ty.i

/-- The per-instruction field decoding done at the top of the getStat loop:
all fields are bit ranges of the raw word, the tag comes from getOp. -/
def decode (a w : Nat) : Instruction :=
  { addr := a
    word := w
    op := bitsAt w 26 31
    rs := bitsAt w 21 25
    rt := bitsAt w 16 20
    rd := bitsAt w 11 15
    shamt := bitsAt w 6 10
    funct := bitsAt w 0 5
    imm := bitsAt w 0 15
    jAddr := bitsAt w 0 25
    type := getOp (bitsAt w 26 31) }

/-- void addType(Stats*, Type): bumps the counter of the matching format. -/
def addType (stats : Stats) (ty : Ty) : Stats :=
  match ty with
  | Ty.r => { stats with rType := stats.rType + 1 }
  | Ty.i => { stats with iType := stats.iType + 1 }
  | Ty.j => { stats with jType := stats.jType + 1 }

/-- void addToLoad(Stats*, int op): the switch groups 0x20, 0x24, 0x21, 0x25,
0x23 into loads and 0x28, 0x29, 0x2b into stores; every other opcode falls
through with no change. -/
def addToLoad (stats : Stats) (op : Int) : Stats :=
  if op = 0x20 ∨ op = 0x24 ∨ op = 0x21 ∨ op = 0x25 ∨ op = 0x23 then
    { stats with loads := stats.loads + 1 }
  else if op = 0x28 ∨ op = 0x29 ∨ op = 0x2b then
    { stats with stores := stats.stores + 1 }
  else stats

/-- void addArith(Stats*, int op, int funct): for opcode 0 a funct group,
otherwise the opcode group 0x08, 0x09. -/
def addArith (stats : Stats) (op funct : Int) : Stats :=
  if op = 0x00 then
    if funct = 0x20 ∨ funct = 0x21 ∨ funct = 0x22 ∨ funct = 0x23 ∨ funct = 0x18 ∨
        funct = 0x19 ∨ funct = 0x1a ∨ funct = 0x1b ∨ funct = 0x10 ∨ funct = 0x12 ∨
        funct = 0x00 ∨ funct = 0x01 then
      { stats with arith := stats.arith + 1 }
    else stats
  else
    if op = 0x08 ∨ op = 0x09 then { stats with arith := stats.arith + 1 }
    else stats

/-- A single ++ or -- on one cell of the register table: adds d at column y of
register x and leaves every other cell alone. -/
def bump (f : Int → Nat → Int) (x : Int) (y : Nat) (d : Int) : Int → Nat → Int :=
  fun a b => if a = x ∧ b = y then f a b + d else f a b

/-- void addReadWrite(Stats*, Instruction*): switch on the format tag with
cases r, i and default, each branch a sequence of ++ and -- on the register
table, in source order (column 0 is read, column 1 is write). -/
def addReadWrite (stats : Stats) (inn : Instruction) : Stats :=
  if inn.type = Ty.r then
    let g0 := bump (bump (bump stats.reg inn.rd 1 1) inn.rs 0 1) inn.rt 0 1
    let g1 :=
      if inn.funct = 0x08 then bump (bump g0 inn.rd 1 (-1)) inn.rt 0 (-1)
      else if inn.funct = 0x00 ∨ inn.funct = 0x02 ∨ inn.funct = 0x3 then
        bump g0 inn.rs 0 (-1)
      else g0
    { stats with reg := g1 }
  else if inn.type = Ty.i then
    let g0 := bump (bump stats.reg inn.rt 1 1) inn.rs 0 1
    let g1 :=
      if inn.op = 0xf then bump g0 inn.rs 0 (-1)
      else if inn.op = 0x4 ∨ inn.op = 0x5 then bump (bump g0 inn.rt 1 (-1)) inn.rt 0 1
      else if inn.op = 0x28 ∨ inn.op = 0x29 ∨ inn.op = 0x2b ∨ inn.op = 0x38 then
        bump (bump g0 inn.rt 0 1) inn.rt 1 (-1)
      else g0
    { stats with reg := g1 }
  else
    if inn.op = 0x3 then
      { stats with reg := bump (bump (bump stats.reg inn.rt 1 (-1)) inn.rs 0 (-1)) 31 1 1 }
    else stats

/-- void addBranchCount(Stats*, long prevAddr, long inAddr, int prevOp):
signed difference of consecutive addresses, then the three-way tally. -/
def addBranchCount (stats : Stats) (prevAddr inAddr : Int) (prevOp : Int) : Stats :=
  let diff := inAddr - prevAddr
  if 4 < diff then { stats with fwdTaken := stats.fwdTaken + 1 }
  else if diff < 0 then { stats with bkwTaken := stats.bkwTaken + 1 }
  else if prevOp = 0x04 ∨ prevOp = 0x05 then { stats with notTaken := stats.notTaken + 1 }
  else stats

/-- The conversion of a uint64 address to the long parameters of
addBranchCount: two-complement wrap into a signed 64-bit value. -/
def toLong (x : Nat) : Int :=
  if x % 2 ^ 64 < 2 ^ 63 then ((x % 2 ^ 64 : Nat) : Int)
  else ((x % 2 ^ 64 : Nat) : Int) - 2 ^ 64

/-- The body of one getStat loop iteration up to the branch tally: insts++,
then addType, addToLoad, addArith, addReadWrite on the decoded instruction. -/
def tallyInstruction (stats : Stats) (inn : Instruction) : Stats :=
  addReadWrite
    (addArith
      (addToLoad
        (addType { stats with insts := stats.insts + 1 } inn.type)
        inn.op)
      inn.op inn.funct)
    inn

/-- One full getStat loop iteration: the tallies, then addBranchCount when a
previous instruction exists (prev is NULL only before the first iteration). -/
def stepStats (stats : Stats) (prev : Option Instruction) (inn : Instruction) : Stats :=
  match prev with
  | none => tallyInstruction stats inn
  | some p => addBranchCount (tallyInstruction stats inn) (toLong p.addr) (toLong inn.addr) p.op

/-- The getStat loop over the remaining (address, word) records, carrying the
accumulator and the previous decoded instruction. -/
def getStatAux : Stats → Option Instruction → List (Nat × Nat) → Stats
  | s, _, [] => s
  | s, prev, rc :: rest => getStatAux (stepStats s prev (decode rc.1 rc.2)) (some (decode rc.1 rc.2)) rest

/-- Stats getStat(Instruction* list, int count): fold over the trace starting
from the zeroed accumulator with no previous instruction. -/
def getStat (l : List (Nat × Nat)) : Stats :=
  getStatAux stats0 none l

/-- One output line of printStats: a plain integer line, a percentage line
rendered as numerator divided by denominator times 100, or a register line
with its read and write counts. -/
inductive Line where
  | intLine : String → Int → Line
  | pctLine : String → Int → Int → Line
  | regLine : Nat → Int → Int → Line

/-- void printStats(FILE*, Stats*): the fixed report layout. Every percentage
line divides its counter by stats.insts with no guard; register lines print
the read column then the write column. -/
def printStats (s : Stats) : List Line :=
  [Line.intLine "insts" s.insts,
   Line.intLine "r-type" s.rType,
   Line.intLine "i-type" s.iType,
   Line.intLine "j-type" s.jType,
   Line.pctLine "fwd-taken" s.fwdTaken s.insts,
   Line.pctLine "bkw-taken" s.bkwTaken s.insts,
   Line.pctLine "not-taken" s.notTaken s.insts,
   Line.pctLine "loads" s.loads s.insts,
   Line.pctLine "stores" s.stores s.insts,
   Line.pctLine "arith" s.arith s.insts]
  ++ (List.range 32).map (fun k => Line.regLine k (s.reg k 0) (s.reg k 1))

/-- The denominators of the percentage lines of a report, in order. -/
def pctDenoms : List Line → List Int
  | [] => []
  | Line.pctLine _ _ d :: rest => d :: pctDenoms rest
  | _ :: rest => pctDenoms rest

/-- The fscanf read loop of main, with explicit fuel. A some result is the
record list at loop exit (fscanf returned EOF); none means the loop was still
running when the fuel ran out. A token pair that both parse appends a full
record; a record whose word token is missing or unparseable appends the
address with an indeterminate word; a stream whose head token does not parse
is left unchanged, since fscanf returns 0 there without consuming anything. -/
def readLoop : Nat → List (Option Nat) → List (Nat × Option Nat) → Option (List (Nat × Option Nat))
  | 0, _, _ => none
  | _ + 1, [], acc => some acc.reverse
  | f + 1, none :: rest, acc => readLoop f (none :: rest) acc
  | f + 1, some a :: none :: rest, acc => readLoop f (none :: rest) ((a, none) :: acc)
  | f + 1, some a :: some w :: rest, acc => readLoop f rest ((a, some w) :: acc)
  | f + 1, [some a], acc => readLoop f [] ((a, none) :: acc)

/-- The read loop of main terminates on the given token stream: some fuel
suffices for fscanf to report EOF and the loop to exit with a record list. -/
def scanStops (toks : List (Option Nat)) : Prop :=
  ∃ f recs, readLoop f toks [] = some recs

/-- A list of record pairs laid out as the token stream that encodes them:
address token then word token for each record. -/
def encodePairs : List (Nat × Nat) → List (Option Nat)
  | [] => []
  | (a, w) :: rest => some a :: some w :: encodePairs rest

/-- addType leaves insts and the branch counters alone and raises the sum of
the three format counters by exactly one. -/
theorem addType_counts (s : Stats) (ty : Ty) :
    (addType s ty).insts = s.insts ∧
    (addType s ty).rType + (addType s ty).iType + (addType s ty).jType
      = s.rType + s.iType + s.jType + 1 ∧
    (addType s ty).fwdTaken = s.fwdTaken ∧
    (addType s ty).bkwTaken = s.bkwTaken ∧
    (addType s ty).notTaken = s.notTaken := by
  cases ty <;> simp [addType] <;> omega

/-- addToLoad changes only the loads and stores counters. -/
theorem addToLoad_keeps (s : Stats) (op : Int) :
    (addToLoad s op).insts = s.insts ∧
    (addToLoad s op).rType = s.rType ∧
    (addToLoad s op).iType = s.iType ∧
    (addToLoad s op).jType = s.jType ∧
    (addToLoad s op).fwdTaken = s.fwdTaken ∧
    (addToLoad s op).bkwTaken = s.bkwTaken ∧
    (addToLoad s op).notTaken = s.notTaken := by
  unfold addToLoad
  split_ifs <;> exact ⟨rfl, rfl, rfl, rfl, rfl, rfl, rfl⟩

/-- addArith changes only the arith counter. -/
theorem addArith_keeps (s : Stats) (op funct : Int) :
    (addArith s op funct).insts = s.insts ∧
    (addArith s op funct).rType = s.rType ∧
    (addArith s op funct).iType = s.iType ∧
    (addArith s op funct).jType = s.jType ∧
    (addArith s op funct).fwdTaken = s.fwdTaken ∧
    (addArith s op funct).bkwTaken = s.bkwTaken ∧
    (addArith s op funct).notTaken = s.notTaken := by
  unfold addArith
  split_ifs <;> exact ⟨rfl, rfl, rfl, rfl, rfl, rfl, rfl⟩

/-- addReadWrite changes only the register table. -/
theorem addReadWrite_keeps (s : Stats) (inn : Instruction) :
    (addReadWrite s inn).insts = s.insts ∧
    (addReadWrite s inn).rType = s.rType ∧
    (addReadWrite s inn).iType = s.iType ∧
    (addReadWrite s inn).jType = s.jType ∧
    (addReadWrite s inn).fwdTaken = s.fwdTaken ∧
    (addReadWrite s inn).bkwTaken = s.bkwTaken ∧
    (addReadWrite s inn).notTaken = s.notTaken := by
  unfold addReadWrite
  split_ifs <;> exact ⟨rfl, rfl, rfl, rfl, rfl, rfl, rfl⟩

/-- addBranchCount leaves everything but the three branch counters alone. -/
theorem addBranchCount_keeps (s : Stats) (pa ia po : Int) :
    (addBranchCount s pa ia po).insts = s.insts ∧
    (addBranchCount s pa ia po).rType = s.rType ∧
    (addBranchCount s pa ia po).iType = s.iType ∧
    (addBranchCount s pa ia po).jType = s.jType ∧
    (addBranchCount s pa ia po).loads = s.loads ∧
    (addBranchCount s pa ia po).stores = s.stores ∧
    (addBranchCount s pa ia po).arith = s.arith ∧
    (addBranchCount s pa ia po).reg = s.reg := by
  unfold addBranchCount
  dsimp only
  split_ifs <;> exact ⟨rfl, rfl, rfl, rfl, rfl, rfl, rfl, rfl⟩

/-- One tally pass raises insts by one, raises the sum of the format counters
by one and leaves the branch counters alone. -/
theorem tally_counts (s : Stats) (inn : Instruction) :
    (tallyInstruction s inn).insts = s.insts + 1 ∧
    (tallyInstruction s inn).rType + (tallyInstruction s inn).iType
        + (tallyInstruction s inn).jType
      = s.rType + s.iType + s.jType + 1 ∧
    (tallyInstruction s inn).fwdTaken = s.fwdTaken ∧
    (tallyInstruction s inn).bkwTaken = s.bkwTaken ∧
    (tallyInstruction s inn).notTaken = s.notTaken := by
  unfold tallyInstruction
  obtain ⟨h1, h2, h3, h4, h5⟩ := addType_counts { s with insts := s.insts + 1 } inn.type
  obtain ⟨k1, k2, k3, k4, k5, k6, k7⟩ :=
    addToLoad_keeps (addType { s with insts := s.insts + 1 } inn.type) inn.op
  obtain ⟨a1, a2, a3, a4, a5, a6, a7⟩ :=
    addArith_keeps (addToLoad (addType { s with insts := s.insts + 1 } inn.type) inn.op)
      inn.op inn.funct
  obtain ⟨r1, r2, r3, r4, r5, r6, r7⟩ :=
    addReadWrite_keeps
      (addArith (addToLoad (addType { s with insts := s.insts + 1 } inn.type) inn.op)
        inn.op inn.funct)
      inn
  simp only [Stats.insts] at *
  refine ⟨?_, ?_, ?_, ?_, ?_⟩ <;> omega

/-- One full loop step raises insts by one and the format counter sum by one. -/
theorem stepStats_counts (s : Stats) (p : Option Instruction) (inn : Instruction) :
    (stepStats s p inn).insts = s.insts + 1 ∧
    (stepStats s p inn).rType + (stepStats s p inn).iType + (stepStats s p inn).jType
      = s.rType + s.iType + s.jType + 1 := by
  obtain ⟨t1, t2, t3, t4, t5⟩ := tally_counts s inn
  cases p with
  | none => exact ⟨t1, t2⟩
  | some q =>
    obtain ⟨b1, b2, b3, b4, b5, b6, b7, b8⟩ :=
      addBranchCount_keeps (tallyInstruction s inn) (toLong q.addr) (toLong inn.addr) q.op
    simp only [stepStats]
    omega

/-- The getStat loop preserves the sum invariant from any starting
accumulator. -/
theorem getStatAux_sum (l : List (Nat × Nat)) :
    ∀ (s : Stats) (p : Option Instruction),
      s.insts = s.rType + s.iType + s.jType →
      (getStatAux s p l).insts
        = (getStatAux s p l).rType + (getStatAux s p l).iType + (getStatAux s p l).jType := by
  induction l with
  | nil => intro s p h; simpa [getStatAux] using h
  | cons rc rest ih =>
    intro s p h
    obtain ⟨h1, h2⟩ := stepStats_counts s p (decode rc.1 rc.2)
    exact ih _ _ (by omega)

/-- C6: after folding any finite record list through getStat, the total
instruction count equals the sum of the R-type, I-type and J-type counts. -/
theorem insts_sum_invariant (l : List (Nat × Nat)) :
    (getStat l).insts = (getStat l).rType + (getStat l).iType + (getStat l).jType :=
  getStatAux_sum l stats0 none rfl

/-- C4: addBranchCount raises fwdTaken exactly when the signed address
difference exceeds 4, raises bkwTaken exactly when it is negative, raises
notTaken exactly when it lies in 0..4 and the previous opcode is 0x04 or
0x05, touches nothing else, and the first record of a trace (processed with
no previous instruction) never changes any branch counter. -/
theorem branch_classification_spec :
    (∀ (s : Stats) (prevAddr inAddr prevOp : Int),
      (addBranchCount s prevAddr inAddr prevOp).fwdTaken
          = s.fwdTaken + (if 4 < inAddr - prevAddr then 1 else 0) ∧
      (addBranchCount s prevAddr inAddr prevOp).bkwTaken
          = s.bkwTaken + (if inAddr - prevAddr < 0 then 1 else 0) ∧
      (addBranchCount s prevAddr inAddr prevOp).notTaken
          = s.notTaken +
            (if 0 ≤ inAddr - prevAddr ∧ inAddr - prevAddr ≤ 4 ∧ (prevOp = 0x04 ∨ prevOp = 0x05)
             then 1 else 0) ∧
      (addBranchCount s prevAddr inAddr prevOp).insts = s.insts ∧
      (addBranchCount s prevAddr inAddr prevOp).rType = s.rType ∧
      (addBranchCount s prevAddr inAddr prevOp).iType = s.iType ∧
      (addBranchCount s prevAddr inAddr prevOp).jType = s.jType ∧
      (addBranchCount s prevAddr inAddr prevOp).loads = s.loads ∧
      (addBranchCount s prevAddr inAddr prevOp).stores = s.stores ∧
      (addBranchCount s prevAddr inAddr prevOp).arith = s.arith ∧
      (addBranchCount s prevAddr inAddr prevOp).reg = s.reg) ∧
    (∀ (s : Stats) (rc : Nat × Nat),
      (getStatAux s none [rc]).fwdTaken = s.fwdTaken ∧
      (getStatAux s none [rc]).bkwTaken = s.bkwTaken ∧
      (getStatAux s none [rc]).notTaken = s.notTaken) := by
  constructor
  · intro s prevAddr inAddr prevOp
    unfold addBranchCount
    dsimp only
    split_ifs <;> simp_all <;> omega
  · intro s rc
    show (stepStats s none (decode rc.1 rc.2)).fwdTaken = s.fwdTaken ∧
      (stepStats s none (decode rc.1 rc.2)).bkwTaken = s.bkwTaken ∧
      (stepStats s none (decode rc.1 rc.2)).notTaken = s.notTaken
    obtain ⟨t1, t2, t3, t4, t5⟩ := tally_counts s (decode rc.1 rc.2)
    exact ⟨t3, t4, t5⟩

/-- C7: getOp is a total partition: r exactly on opcode 0, j exactly on
opcodes 2 and 3, i exactly on everything else, and every opcode gets one of
the three tags. -/
theorem getOp_total_partition (op : Int) :
    (getOp op = Ty.r ∨ getOp op = Ty.i ∨ getOp op = Ty.j) ∧
    (getOp op = Ty.r ↔ op = 0x00) ∧
    (getOp op = Ty.j ↔ (op = 0x02 ∨ op = 0x03)) ∧
    (getOp op = Ty.i ↔ (op ≠ 0x00 ∧ op ≠ 0x02 ∧ op ≠ 0x03)) := by
  unfold getOp
  split_ifs <;> (simp_all; try tauto)

/-- C8: addToLoad raises loads exactly on opcodes 0x20, 0x21, 0x23, 0x24,
0x25, raises stores exactly on opcodes 0x28, 0x29, 0x2b, and leaves both
counters unchanged on every other opcode. -/
theorem addToLoad_spec (s : Stats) (op : Int) :
    (addToLoad s op).loads
        = s.loads + (if op = 0x20 ∨ op = 0x21 ∨ op = 0x23 ∨ op = 0x24 ∨ op = 0x25 then 1 else 0) ∧
    (addToLoad s op).stores
        = s.stores + (if op = 0x28 ∨ op = 0x29 ∨ op = 0x2b then 1 else 0) := by
  unfold addToLoad
  split_ifs <;> (simp_all; try omega)

/-- C5: every percentage line of the report divides its counter by the total
instruction count with no guard, and on the empty trace that count is zero,
so each of the six percentage lines divides by zero. -/
theorem percentage_denominators_unguarded :
    (∀ s : Stats, pctDenoms (printStats s) = List.replicate 6 s.insts) ∧
    (getStat []).insts = 0 :=
  ⟨fun _ => rfl, rfl⟩

/-- C1: evaluating the register tally on a jal instruction (opcode 0x03,
rs 1, rt 2, word 0x0C220000) from the zeroed accumulator. The code
decrements the write count of rt and the read count of rs, which were never
incremented on this path, leaving them at minus one next to the single write
it records for register 31. -/
theorem jal_tally_divergence :
    stats0.reg 2 1 = 0 ∧ stats0.reg 1 0 = 0 ∧
    (addReadWrite stats0 (decode 0 203554816)).reg 2 1 = -1 ∧
    (addReadWrite stats0 (decode 0 203554816)).reg 1 0 = -1 ∧
    (addReadWrite stats0 (decode 0 203554816)).reg 31 1 = 1 := by
  decide

/-- A masked and shifted field is bounded by the shifted mask, and when that
bound is below 2 to the 31 the int cast is the identity, so bitsAt lands in
the interval from 0 to the shifted mask. -/
theorem bitsAt_bound (w s e : Nat) (hm : mask64 s e >>> s < 2 ^ 31) :
    0 ≤ bitsAt w s e ∧ bitsAt w s e ≤ (mask64 s e >>> s : Nat) := by
  unfold bitsAt toInt32
  have h1 : ((w % 2 ^ 64) &&& mask64 s e) >>> s ≤ mask64 s e >>> s := by
    rw [Nat.shiftRight_eq_div_pow, Nat.shiftRight_eq_div_pow]
    exact Nat.div_le_div_right Nat.and_le_right
  have h2 : ((w % 2 ^ 64) &&& mask64 s e) >>> s < 2 ^ 32 :=
    lt_of_le_of_lt h1 (lt_trans hm (by norm_num))
  rw [Nat.mod_eq_of_lt h2]
  rw [if_pos (lt_of_le_of_lt h1 hm)]
  exact ⟨Int.ofNat_nonneg _, by exact_mod_cast h1⟩

/-- C10: the rs, rt and rd fields of every decoded instruction are five-bit
values in the interval 0..31, so every register table access of addReadWrite,
including the fixed index 31 used on the jal path, stays inside reg[32][2]. -/
theorem register_indices_in_bounds (a w : Nat) :
    (0 ≤ (decode a w).rs ∧ (decode a w).rs < 32) ∧
    (0 ≤ (decode a w).rt ∧ (decode a w).rt < 32) ∧
    (0 ≤ (decode a w).rd ∧ (decode a w).rd < 32) := by
  have hrs := bitsAt_bound w 21 25 (by decide)
  have hrt := bitsAt_bound w 16 20 (by decide)
  have hrd := bitsAt_bound w 11 15 (by decide)
  have mrs : ((mask64 21 25 >>> 21 : Nat) : Int) = 31 := by decide
  have mrt : ((mask64 16 20 >>> 16 : Nat) : Int) = 31 := by decide
  have mrd : ((mask64 11 15 >>> 11 : Nat) : Int) = 31 := by decide
  simp only [decode]
  refine ⟨⟨hrs.1, ?_⟩, ⟨hrt.1, ?_⟩, ⟨hrd.1, ?_⟩⟩
  · have := hrs.2; rw [mrs] at this; omega
  · have := hrt.2; rw [mrt] at this; omega
  · have := hrd.2; rw [mrd] at this; omega

/-- The full-range mask of bitsAt: the undefined 64-bit shift wraps the bit
out, the uint64 subtraction wraps back, and the mask is all ones. -/
theorem mask64_full : mask64 0 63 = 2 ^ 64 - 1 := by decide

/-- C2 amended: over the full 64-bit range bitsAt reconstructs the word only
when the word fits in 31 bits; the int return truncates everything above. -/
theorem bitsAt_full_range_low_words (w : Nat) (h : w < 2 ^ 31) :
    bitsAt w 0 63 = (w : Int) := by
  unfold bitsAt
  rw [mask64_full]
  have h64 : w % 2 ^ 64 = w := Nat.mod_eq_of_lt (lt_trans h (by norm_num))
  rw [h64, Nat.and_pow_two_sub_one_eq_mod w 64, h64, Nat.shiftRight_zero]
  unfold toInt32
  have h32 : w % 2 ^ 32 = w := Nat.mod_eq_of_lt (lt_trans h (by norm_num))
  rw [h32, if_pos h]

/-- C2 witness: the amended statement evaluated at the word 5. -/
theorem bitsAt_full_range_low_words_witness :
    5 < 2 ^ 31 ∧ bitsAt 5 0 63 = (5 : Int) :=
  ⟨by norm_num, bitsAt_full_range_low_words 5 (by norm_num)⟩

/-- C2 counterexample: at the word 2 to the 32 the full-range extraction
returns 0, not the word, because the int return keeps only the low 32 bits. -/
theorem bitsAt_full_range_counterexample :
    bitsAt 4294967296 0 63 = 0 ∧ bitsAt 4294967296 0 63 ≠ (4294967296 : Int) := by
  decide

/-- C9: on an R-type instruction with funct 0x08 (jr) the register tally nets
to exactly one read of rs: the rd write and rt read of the R-type base effect
are cancelled by the funct 0x08 case. -/
theorem jr_register_tally (s : Stats) (a w : Nat)
    (hop : bitsAt w 26 31 = 0) (hfu : bitsAt w 0 5 = 8) :
    addReadWrite s (decode a w) = { s with reg := bump s.reg (decode a w).rs 0 1 } := by
  have hty : (decode a w).type = Ty.r := by
    show getOp (bitsAt w 26 31) = Ty.r
    rw [hop]; rfl
  have hfu2 : (decode a w).funct = 8 := hfu
  unfold addReadWrite
  rw [hty, hfu2]
  simp only [if_pos rfl]
  norm_num
  funext x y
  simp only [bump]
  split_ifs <;> omega

/-- C9 witness: the jr statement evaluated on the word 8 (opcode 0, funct 8,
rs 0) from the zeroed accumulator. -/
theorem jr_register_tally_witness :
    bitsAt 8 26 31 = 0 ∧ bitsAt 8 0 5 = 8 ∧
    addReadWrite stats0 (decode 0 8) = { stats0 with reg := bump stats0.reg (decode 0 8).rs 0 1 } :=
  ⟨by decide, by decide, jr_register_tally stats0 0 8 (by decide) (by decide)⟩

/-- With an unparseable token at the head of the stream the read loop makes
no progress: fscanf returns 0 without consuming the token, so no fuel ever
makes the loop exit. -/
theorem readLoop_stuck (f : Nat) :
    ∀ (rest : List (Option Nat)) (acc : List (Nat × Option Nat)),
      readLoop f (none :: rest) acc = none := by
  induction f with
  | zero => intro rest acc; rfl
  | succ n ih => intro rest acc; exact ih rest acc

/-- C3 amended: on a stream of record pairs that parse followed by a token
that does not, the read loop of main never exits, whatever fuel it is given
and whatever follows the bad token: fscanf keeps returning 0 on the
unconsumed bad token, so the program never reaches the analysis. -/
theorem malformed_token_loop_never_terminates
    (pairs : List (Nat × Nat)) (rest : List (Option Nat)) (f : Nat)
    (acc : List (Nat × Option Nat)) :
    readLoop f (encodePairs pairs ++ none :: rest) acc = none := by
  induction pairs generalizing f acc with
  | nil => exact readLoop_stuck f rest acc
  | cons p t ih =>
    obtain ⟨a, w⟩ := p
    cases f with
    | zero => rfl
    | succ n => exact ih n ((a, some w) :: acc)

/-- C3 counterexample: on the stream with one good record pair (values 4 and
8) followed by a bad token, the claim that the loop stops and the first
record is analyzed is false: the loop does not terminate at all. -/
theorem malformed_token_early_stop_false :
    scanStops [some 4, some 8, none] = False := by
  refine eq_false ?_
  rintro ⟨f, recs, h⟩
  cases f with
  | zero => exact Option.noConfusion h
  | succ n =>
    rw [show readLoop (n + 1) [some 4, some 8, none] [] = readLoop n [none] [(4, some 8)] from rfl,
      readLoop_stuck n [] [(4, some 8)]] at h
    exact Option.noConfusion h
